import Mathlib

/-!
Verification of the point-set registration core of DICOMautomaton
(src/src/Operations/AlignPoints.cc and src/registration/src/CPD_Shared.cc)
against its natural-language specification.

The C++ code is shallowly embedded: `double` becomes `ℝ`, `vec3<double>`
becomes `V3`, the 4x4 `std::array` storage of `AffineTransform` becomes a
function `ℤ → ℤ → ℝ` (only indices 0..3 are ever read or written; the
`coeff` accessor guards all writes), Eigen dynamic matrices restricted to
3x3 become `Matrix (Fin 3) (Fin 3) ℝ`, point clouds become `List V3`
(rows in input order), and C++ exceptions become `Except RegError`.
The Eigen symmetric eigensolver is an external library call and is
abstracted as a parameter producing the three eigenvector columns.
-/

noncomputable section

/-- Shallow embedding of `vec3<double>` (YgorMath). -/
structure V3 where
  x : ℝ
  y : ℝ
  z : ℝ

instance : Add V3 := ⟨fun a b => ⟨a.x + b.x, a.y + b.y, a.z + b.z⟩⟩

instance : Sub V3 := ⟨fun a b => ⟨a.x - b.x, a.y - b.y, a.z - b.z⟩⟩

instance : SMul ℝ V3 := ⟨fun r a => ⟨r * a.x, r * a.y, r * a.z⟩⟩

instance : Zero V3 := ⟨⟨0, 0, 0⟩⟩

/-- `vec3::Dot`. -/
def V3.dot (a b : V3) : ℝ := a.x * b.x + a.y * b.y + a.z * b.z

/-- Eigen's `squaredNorm` of a 3-vector. -/
def V3.sqnorm (a : V3) : ℝ := a.x ^ 2 + a.y ^ 2 + a.z ^ 2

/-- `vec3::unit` (YgorMath): the vector divided by its Euclidean length.
For the zero vector the C++ division 0/0 yields NaN; under Lean's total
division convention the result is the zero vector. -/
def V3.unit (v : V3) : V3 := (1 / Real.sqrt v.sqnorm) • v

/-- 3x3 real matrices (`Eigen::Matrix3d`). -/
abbrev Matrix3 := Matrix (Fin 3) (Fin 3) ℝ

/-- Coordinates of a `V3` as a `Fin 3`-indexed row, matching the column
layout `mat(i,0..2) = (x,y,z)` used when point clouds are packed into
Eigen matrices. -/
def V3.coord (v : V3) : Fin 3 → ℝ := ![v.x, v.y, v.z]

/-- `Eigen::Matrix3d * Eigen::Vector3d`. -/
def mulV3 (A : Matrix3) (v : V3) : V3 :=
  ⟨A 0 0 * v.x + A 0 1 * v.y + A 0 2 * v.z,
   A 1 0 * v.x + A 1 1 * v.y + A 1 2 * v.z,
   A 2 0 * v.x + A 2 1 * v.y + A 2 2 * v.z⟩

/-- The 3x3 matrix with the three given vectors as columns, as assembled
entry-by-entry for `S` and `M` in `AlignViaPCA`. -/
def mkCols (a b c : V3) : Matrix3 :=
  Matrix.of fun i j => (![a, b, c] j).coord i

/-- Error kinds (the spec's names for the C++ exceptions thrown by the
registration code). -/
inductive RegError where
  | EMPTY_POINTSET
  | INVALID_COEFFICIENT
  | NOT_AFFINE
  | METHOD_UNKNOWN
  | INVALID_SELECTION
deriving DecidableEq

/-- The `AffineTransform` struct: a 4x4 array of doubles `t[i][j]`,
embedded as a function on `ℤ` indices (the C++ accessor takes `long int`
and guards the range; only indices 0..3 are ever touched). -/
structure AffineTransform where
  t : ℤ → ℤ → ℝ

/-- The default-constructed `AffineTransform`: the in-class initializer
sets `t` to the 4x4 identity. -/
def AffineTransform.identity : AffineTransform :=
  ⟨fun i j => if i = j then 1 else 0⟩

/-- Pointwise array update `t[i][j] = v`. -/
def setEntry (f : ℤ → ℤ → ℝ) (i j : ℤ) (v : ℝ) : ℤ → ℤ → ℝ :=
  fun ip jp => if ip = i ∧ jp = j then v else f ip jp

/-- `AffineTransform::coeff(i,j)` used as the target of an assignment:
`if(!isininc(0L,i,3L) || !isininc(0L,j,2L)) throw std::invalid_argument`,
otherwise the referenced entry is written. -/
def AffineTransform.coeff_set (T : AffineTransform) (i j : ℤ) (v : ℝ) :
    Except RegError AffineTransform :=
  if (0 ≤ i ∧ i ≤ 3) ∧ (0 ≤ j ∧ j ≤ 2) then
    .ok ⟨setEntry T.t i j v⟩
  else
    .error .INVALID_COEFFICIENT

/-- The homogeneous weight `w` computed inside `AffineTransform::apply_to`:
`w = in.x*t[0][3] + in.y*t[1][3] + in.z*t[2][3] + 1.0*t[3][3]`. -/
def AffineTransform.weight (T : AffineTransform) (p : V3) : ℝ :=
  p.x * T.t 0 3 + p.y * T.t 1 3 + p.z * T.t 2 3 + 1 * T.t 3 3

open Classical in
/-- `AffineTransform::apply_to(const vec3&)`: computes the four homogeneous
components and throws ("Transformation is not Affine") when `w != 1.0`
(an exact comparison in the source). -/
def AffineTransform.apply_to (T : AffineTransform) (p : V3) :
    Except RegError V3 :=
  if T.weight p = 1 then
    .ok ⟨p.x * T.t 0 0 + p.y * T.t 1 0 + p.z * T.t 2 0 + 1 * T.t 3 0,
         p.x * T.t 0 1 + p.y * T.t 1 1 + p.z * T.t 2 1 + 1 * T.t 3 1,
         p.x * T.t 0 2 + p.y * T.t 1 2 + p.z * T.t 2 2 + 1 * T.t 3 2⟩
  else
    .error .NOT_AFFINE

/-- The transforms reachable from the default constructor through any
sequence of successful `coeff` writes. -/
inductive Reachable : AffineTransform → Prop where
  | base : Reachable AffineTransform.identity
  | step (T : AffineTransform) (i j : ℤ) (v : ℝ) (Tp : AffineTransform) :
      Reachable T → T.coeff_set i j v = .ok Tp → Reachable Tp

/-- The `est_COM` lambda common to `AlignViaCOM` and `AlignViaPCA`:
running sums of each coordinate in input order, divided by the point
count (in real arithmetic `Stats::Running_Sum` is the plain sum). -/
def est_COM (pc : List V3) : V3 :=
  ⟨(pc.map V3.x).sum / pc.length,
   (pc.map V3.y).sum / pc.length,
   (pc.map V3.z).sum / pc.length⟩

/-- `AlignViaCOM`: starts from the identity transform and writes the
centroid difference into the translation column. There is no emptiness
check anywhere in the routine. -/
def AlignViaCOM (moving stationary : List V3) :
    Except RegError AffineTransform := do
  let COM_s := est_COM stationary
  let COM_m := est_COM moving
  let dCOM := COM_s - COM_m
  let t0 := AffineTransform.identity
  let t1 ← t0.coeff_set 3 0 dCOM.x
  let t2 ← t1.coeff_set 3 1 dCOM.y
  let t3 ← t2.coeff_set 3 2 dCOM.z
  return t3

/-- The `pcomps` struct of `AlignViaPCA`: three principal-component
vectors. -/
structure pcomps where
  pc1 : V3
  pc2 : V3
  pc3 : V3

/-- The covariance matrix built inside `est_PCA`:
`centered = mat.rowwise() - mat.colwise().mean(); cov = centered.adjoint() * centered`,
so `cov(i,j) = Σ_rows (p_i - μ_i)(p_j - μ_j)` with `μ` the per-column mean. -/
def covMat (pc : List V3) : Matrix3 :=
  Matrix.of fun i j =>
    (pc.map (fun p =>
      (p.coord i - (est_COM pc).coord i) * (p.coord j - (est_COM pc).coord j))).sum

/-- The `est_PCA` lambda of `AlignViaPCA`. The call to Eigen's
`SelfAdjointEigenSolver` is an external library call, abstracted as the
parameter `eig`, which returns the three eigenvector columns
`evecs(:,0), evecs(:,1), evecs(:,2)`; the code then takes `.unit()` of
each column. -/
def est_PCA (eig : Matrix3 → pcomps) (pc : List V3) : pcomps :=
  let e := eig (covMat pc)
  ⟨e.pc1.unit, e.pc2.unit, e.pc3.unit⟩

/-- The per-axis third central moment accumulated by `reorient_pcomps`:
`Σ_points ((p - COM)·e)^3`, digested in input order. -/
def thirdMoment (COM : V3) (e : V3) (pc : List V3) : ℝ :=
  (pc.map (fun v => ((v - COM).dot e) ^ 3)).sum

/-- The `reorient_pcomps` lambda of `AlignViaPCA`: each principal
component is scaled by its third central moment and re-normalised,
`out.pc_k = (comps.pc_k * rs_pc_k.Current_Sum()).unit()`. -/
def reorient_pcomps (COM : V3) (comps : pcomps) (pc : List V3) : pcomps :=
  ⟨(thirdMoment COM comps.pc1 pc • comps.pc1).unit,
   (thirdMoment COM comps.pc2 pc • comps.pc2).unit,
   (thirdMoment COM comps.pc3 pc • comps.pc3).unit⟩

/-- `AlignViaPCA`, parametrised by the external eigensolver `eig`:
computes centroids, principal components, reoriented components, the
rotation `A = S * Mᵀ`, and writes `t[i][j] = A(j,i)` followed by the
translation column `b = COM_s - A * COM_m`. No emptiness or rank check
appears anywhere in the routine. -/
def AlignViaPCA (eig : Matrix3 → pcomps) (moving stationary : List V3) :
    Except RegError AffineTransform := do
  let COM_s := est_COM stationary
  let COM_m := est_COM moving
  let pcomps_stationary := est_PCA eig stationary
  let pcomps_moving := est_PCA eig moving
  let rs := reorient_pcomps COM_s pcomps_stationary stationary
  let rm := reorient_pcomps COM_m pcomps_moving moving
  let S := mkCols rs.pc1 rs.pc2 rs.pc3
  let M := mkCols rm.pc1 rm.pc2 rm.pc3
  let A := S * M.transpose
  let t0 := AffineTransform.identity
  let t1 ← t0.coeff_set 0 0 (A 0 0)
  let t2 ← t1.coeff_set 0 1 (A 1 0)
  let t3 ← t2.coeff_set 0 2 (A 2 0)
  let t4 ← t3.coeff_set 1 0 (A 0 1)
  let t5 ← t4.coeff_set 1 1 (A 1 1)
  let t6 ← t5.coeff_set 1 2 (A 2 1)
  let t7 ← t6.coeff_set 2 0 (A 0 2)
  let t8 ← t7.coeff_set 2 1 (A 1 2)
  let t9 ← t8.coeff_set 2 2 (A 2 2)
  let b := COM_s - mulV3 A COM_m
  let t10 ← t9.coeff_set 3 0 b.x
  let t11 ← t10.coeff_set 3 1 b.y
  let t12 ← t11.coeff_set 3 2 b.z
  return t12

/-- `Init_Sigma_Squared` (CPD_Shared.cc): accumulates
`normSum += (xRow - yRow).squaredNorm()` over all row pairs in loop
order, then returns `1.0 / (nRowsX * mRowsY * dim) * normSum` with
`dim = xPoints.cols() = 3`. -/
def Init_Sigma_Squared (xPoints yPoints : List V3) : ℝ :=
  let normSum :=
    xPoints.foldl
      (fun acc xr =>
        yPoints.foldl (fun acc2 yr => acc2 + V3.sqnorm (xr - yr)) acc)
      0
  1 / ((xPoints.length : ℝ) * (yPoints.length : ℝ) * 3) * normSum

/-- The `expMat` matrix of `E_Step` (CPD_Shared.cc):
`expMat(m,n) = exp(-1/(2σ²) * ‖x_n - (R y_m + t)‖²)`. -/
def expMat {N M : ℕ} (xPoints : Fin N → V3) (yPoints : Fin M → V3)
    (R : Matrix3) (t : V3) (sigmaSquared : ℝ) : Fin M → Fin N → ℝ :=
  fun m n =>
    Real.exp (-1 / (2 * sigmaSquared) *
      V3.sqnorm (xPoints n - (mulV3 R (yPoints m) + t)))

/-- `E_Step` (CPD_Shared.cc): the posterior matrix
`postProb(m,n) = expMat(m,n) / (expMat.col(n).sum() + c)` where the
source computes the constant as
`pow(2*M_PI*sigmaSquared, (double)(dimensionality/2)) * (w/(1-w)) * (double)(mRowsY/nRowsX)`.
Both `dimensionality/2` (with `dimensionality = yPoints.cols() = 3`) and
`mRowsY/nRowsX` are C++ *integer* divisions, embedded here as `ℕ`
division: the exponent is `3 / 2 = 1` and the ratio is `⌊M / N⌋`.
The unused `scale` parameter is kept from the source signature. -/
def E_Step {N M : ℕ} (xPoints : Fin N → V3) (yPoints : Fin M → V3)
    (R : Matrix3) (t : V3) (sigmaSquared w scale : ℝ) :
    Fin M → Fin N → ℝ :=
  fun m n =>
    expMat xPoints yPoints R t sigmaSquared m n /
      ((∑ mp : Fin M, expMat xPoints yPoints R t sigmaSquared mp n) +
        (2 * Real.pi * sigmaSquared) ^ ((3 : ℕ) / 2) * (w / (1 - w)) *
          ((M / N : ℕ) : ℝ))

/-- The E-step denominator constant as the specification words it
(refinement comparison against `E_Step`): real exponent `D/2 = 3/2` and
real ratio `M/N`, `c = (2πσ²)^(D/2) · (w/(1-w)) · (M/N)`. -/
def E_Step_spec {N M : ℕ} (xPoints : Fin N → V3) (yPoints : Fin M → V3)
    (R : Matrix3) (t : V3) (sigmaSquared w : ℝ) :
    Fin M → Fin N → ℝ :=
  fun m n =>
    expMat xPoints yPoints R t sigmaSquared m n /
      ((∑ mp : Fin M, expMat xPoints yPoints R t sigmaSquared mp n) +
        (2 * Real.pi * sigmaSquared) ^ ((3 : ℝ) / 2) * (w / (1 - w)) *
          ((M : ℝ) / (N : ℝ)))

/-- Modelled from the spec: `Compile_Regex` (a repository helper not
included under src/) compiles method regexes case-insensitively, so
matching first lowercases the candidate string. ASCII lowercase map. -/
def toLowerChar (c : Char) : Char :=
  if 'A' ≤ c ∧ c ≤ 'Z' then Char.ofNat (c.toNat + 32) else c

/-- Case-folded method string (strings embedded as `List Char`). -/
def strLower (s : List Char) : List Char := s.map toLowerChar

/-- The finite language of the operator's regex `"^co?m?$"`. -/
def comLang : List (List Char) :=
  [['c'], ['c', 'o'], ['c', 'm'], ['c', 'o', 'm']]

/-- The finite language of the operator's regex `"^pc?a?$"`. -/
def pcaLang : List (List Char) :=
  [['p'], ['p', 'c'], ['p', 'a'], ['p', 'c', 'a']]

/-- `std::regex_match(MethodStr, regex_com)` with
`regex_com = Compile_Regex("^co?m?$")`: case-insensitive membership in
the regex's finite language. -/
def matches_com (s : List Char) : Prop := strLower s ∈ comLang

/-- `std::regex_match(MethodStr, regex_pca)` with
`regex_pca = Compile_Regex("^pc?a?$")`. -/
def matches_pca (s : List Char) : Prop := strLower s ∈ pcaLang

instance (s : List Char) : Decidable (matches_com s) := by
  unfold matches_com; infer_instance

instance (s : List Char) : Decidable (matches_pca s) := by
  unfold matches_pca; infer_instance

/-- The aligners the `AlignPoints` operator can dispatch to. -/
inductive Method where
  | com
  | pca
deriving DecidableEq

/-- The method-dispatch chain of the `AlignPoints` operator: the `if /
else if` ladder over `regex_com` and `regex_pca`, whose final `else`
throws `std::invalid_argument("Method not understood.")`. There is no
branch for a CPD method. -/
def AlignPointsDispatch (MethodStr : List Char) : Except RegError Method :=
  if matches_com MethodStr then .ok .com
  else if matches_pca MethodStr then .ok .pca
  else .error .METHOD_UNKNOWN

/-- The column matrix (`S` for the stationary cloud, `M` for the moving
cloud) that `AlignViaPCA` assembles from the reoriented principal
components of a point cloud. -/
def reorientedBasis (eig : Matrix3 → pcomps) (pc : List V3) : Matrix3 :=
  let r := reorient_pcomps (est_COM pc) (est_PCA eig pc) pc
  mkCols r.pc1 r.pc2 r.pc3

/-!
Helper lemmas, followed by one theorem per specification claim.
-/

lemma V3.zero_def : (0 : V3) = ⟨0, 0, 0⟩ := rfl

lemma V3.add_def (a b : V3) : a + b = ⟨a.x + b.x, a.y + b.y, a.z + b.z⟩ := rfl

lemma V3.sub_def (a b : V3) : a - b = ⟨a.x - b.x, a.y - b.y, a.z - b.z⟩ := rfl

lemma V3.smul_def (r : ℝ) (a : V3) : r • a = ⟨r * a.x, r * a.y, r * a.z⟩ := rfl

lemma foldl_add_sqnorm (Y : List V3) (x : V3) (a : ℝ) :
    Y.foldl (fun acc2 yr => acc2 + V3.sqnorm (x - yr)) a =
      a + (Y.map (fun yr => V3.sqnorm (x - yr))).sum := by
  induction Y generalizing a with
  | nil => simp
  | cons y ys ih => simp [ih]; ring

lemma foldl_outer_sqnorm (X Y : List V3) (a : ℝ) :
    X.foldl
      (fun acc xr => Y.foldl (fun acc2 yr => acc2 + V3.sqnorm (xr - yr)) acc) a =
      a + (X.map (fun xr => (Y.map (fun yr => V3.sqnorm (xr - yr))).sum)).sum := by
  induction X generalizing a with
  | nil => simp
  | cons x xs ih =>
      rw [List.foldl_cons, foldl_add_sqnorm, ih]
      rw [List.map_cons, List.sum_cons]
      ring

/-- C1: the E-step denominator constant is claimed to use the real
exponent D/2 = 3/2 and the real ratio M/N. The source instead computes
`pow(2*M_PI*sigmaSquared, (double)(dimensionality/2))` and
`(double)(mRowsY / nRowsX)`, both C++ integer divisions. At N = 2, M = 1,
sigma-squared = 1, w = 1/2, R the identity and t = 0, with every point at
the origin, the truncated ratio is ⌊1/2⌋ = 0, the constant c vanishes,
and the code returns P(0,0) = 1, while the formula stated by the claim
and the spec gives P(0,0) < 1. -/
theorem E_Step_uses_integer_division :
    E_Step (fun _ : Fin 2 => (0 : V3)) (fun _ : Fin 1 => (0 : V3))
      1 0 1 (1 / 2) 1 0 0 = 1 ∧
    E_Step_spec (fun _ : Fin 2 => (0 : V3)) (fun _ : Fin 1 => (0 : V3))
      1 0 1 (1 / 2) 0 0 < 1 := by
  have hexp : ∀ (m : Fin 1) (n : Fin 2),
      expMat (fun _ : Fin 2 => (0 : V3)) (fun _ : Fin 1 => (0 : V3)) 1 0 1 m n
        = 1 := by
    intro m n
    unfold expMat
    simp [mulV3, Matrix.one_apply, V3.sqnorm, V3.zero_def, V3.add_def,
      V3.sub_def]
  constructor
  · unfold E_Step
    simp only [hexp]
    norm_num
  · unfold E_Step_spec
    simp only [hexp]
    have hpow : (0 : ℝ) < (2 * Real.pi * 1) ^ ((3 : ℝ) / 2) := by positivity
    rw [Fin.sum_univ_one]
    rw [div_lt_one (by positivity)]
    nlinarith

/-- C2 (counterexample): called on two empty point clouds, both aligners
present in the source return a transform; no EMPTY_POINTSET failure
occurs. -/
theorem align_empty_input_returns_transform :
    (∃ T, AlignViaCOM [] [] = .ok T) ∧
    (∃ T, AlignViaPCA (fun _ => ⟨⟨1, 0, 0⟩, ⟨0, 1, 0⟩, ⟨0, 0, 1⟩⟩) [] [] =
      .ok T) :=
  ⟨⟨_, rfl⟩, ⟨_, rfl⟩⟩

/-- C2 (amended): neither `AlignViaCOM` nor `AlignViaPCA` validates its
inputs; each returns a transform for every pair of point sets, empty
sets included (for which the centroid division 0/0 produces NaN entries
in IEEE arithmetic). -/
theorem aligners_never_fail (eig : Matrix3 → pcomps)
    (moving stationary : List V3) :
    (∃ T, AlignViaCOM moving stationary = .ok T) ∧
    (∃ T, AlignViaPCA eig moving stationary = .ok T) :=
  ⟨⟨_, rfl⟩, ⟨_, rfl⟩⟩

/-- C3: on the perfectly symmetric two-point cloud {(1,0,0), (-1,0,0)}
the third central moment along e1 = (1,0,0) is exactly zero, and
`reorient_pcomps` does not retain e1: it normalises the zero vector
`e1 * 0`, producing 0/0 components (NaN in IEEE arithmetic; the zero
vector under Lean's total division), contradicting both the claim and
the code's own comment that the output "will be either + or - the
original pcomps". -/
theorem reorient_pcomps_zero_moment_not_retained :
    thirdMoment (est_COM [⟨1, 0, 0⟩, ⟨-1, 0, 0⟩]) ⟨1, 0, 0⟩
        [⟨1, 0, 0⟩, ⟨-1, 0, 0⟩] = 0 ∧
    (reorient_pcomps (est_COM [⟨1, 0, 0⟩, ⟨-1, 0, 0⟩])
        ⟨⟨1, 0, 0⟩, ⟨0, 1, 0⟩, ⟨0, 0, 1⟩⟩ [⟨1, 0, 0⟩, ⟨-1, 0, 0⟩]).pc1 =
      ⟨0, 0, 0⟩ ∧
    ((⟨0, 0, 0⟩ : V3) ≠ (⟨1, 0, 0⟩ : V3)) := by
  have hcom : est_COM [⟨1, 0, 0⟩, ⟨-1, 0, 0⟩] = ⟨0, 0, 0⟩ := by
    norm_num [est_COM]
  have hm : thirdMoment (est_COM [⟨1, 0, 0⟩, ⟨-1, 0, 0⟩]) ⟨1, 0, 0⟩
      [⟨1, 0, 0⟩, ⟨-1, 0, 0⟩] = 0 := by
    rw [hcom]
    norm_num [thirdMoment, V3.dot, V3.sub_def]
  refine ⟨hm, ?_, by simp [V3.mk.injEq]⟩
  show ((thirdMoment (est_COM [⟨1, 0, 0⟩, ⟨-1, 0, 0⟩]) ⟨1, 0, 0⟩
      [⟨1, 0, 0⟩, ⟨-1, 0, 0⟩]) • (⟨1, 0, 0⟩ : V3)).unit = ⟨0, 0, 0⟩
  rw [hm]
  norm_num [V3.unit, V3.sqnorm, V3.smul_def]

/-- C4: for non-empty inputs the COM aligner succeeds with a transform
whose linear 3x3 block is the identity and whose translation column is
mean(stationary) - mean(moving), each mean being the running sum of
coordinates in input order divided by the point count. -/
theorem AlignViaCOM_identity_and_centroid_translation
    (moving stationary : List V3) (hm : moving ≠ []) (hs : stationary ≠ []) :
    ∃ T, AlignViaCOM moving stationary = .ok T ∧
      (∀ i j : ℤ, 0 ≤ i → i ≤ 2 → 0 ≤ j → j ≤ 2 →
        T.t i j = if i = j then 1 else 0) ∧
      T.t 3 0 = (stationary.map V3.x).sum / stationary.length -
                (moving.map V3.x).sum / moving.length ∧
      T.t 3 1 = (stationary.map V3.y).sum / stationary.length -
                (moving.map V3.y).sum / moving.length ∧
      T.t 3 2 = (stationary.map V3.z).sum / stationary.length -
                (moving.map V3.z).sum / moving.length := by
  refine ⟨_, rfl, ?_, ?_, ?_, ?_⟩
  · intro i j h0i hi2 h0j hj2
    simp only [setEntry, AffineTransform.identity]
    rw [if_neg (by omega), if_neg (by omega), if_neg (by omega)]
  · simp [setEntry, est_COM, V3.sub_def]
  · simp [setEntry, est_COM, V3.sub_def]
  · simp [setEntry, est_COM, V3.sub_def]

/-- C4 (witness): the theorem applied to the concrete one-point clouds
{(1,2,3)} (moving) and {(4,6,8)} (stationary). -/
theorem AlignViaCOM_identity_and_centroid_translation_witness :
    ([⟨1, 2, 3⟩] : List V3) ≠ [] ∧
    ∃ T, AlignViaCOM [⟨1, 2, 3⟩] [⟨4, 6, 8⟩] = .ok T := by
  refine ⟨by simp, ?_⟩
  obtain ⟨T, hT, -⟩ := AlignViaCOM_identity_and_centroid_translation
    [⟨1, 2, 3⟩] [⟨4, 6, 8⟩] (by simp) (by simp)
  exact ⟨T, hT⟩

/-- C5: for non-empty inputs the PCA aligner succeeds with a transform
that applies p ↦ A p + b where A = S * Mᵀ is built from the
sign-disambiguated principal axes (S stationary, M moving, as columns)
and b = mean(stationary) - A * mean(moving). -/
theorem AlignViaPCA_rotation_and_translation (eig : Matrix3 → pcomps)
    (moving stationary : List V3) (hm : moving ≠ []) (hs : stationary ≠ []) :
    ∃ T, AlignViaPCA eig moving stationary = .ok T ∧
      ∀ p : V3,
        T.apply_to p =
          .ok (mulV3 (reorientedBasis eig stationary *
                (reorientedBasis eig moving).transpose) p +
              (est_COM stationary -
                mulV3 (reorientedBasis eig stationary *
                  (reorientedBasis eig moving).transpose) (est_COM moving))) := by
  refine ⟨_, rfl, fun p => ?_⟩
  unfold AffineTransform.apply_to
  rw [if_pos ?hw]
  case hw =>
    unfold AffineTransform.weight
    simp [setEntry, AffineTransform.identity]
  simp only [setEntry, AffineTransform.identity, reorientedBasis]
  norm_num [mulV3, V3.add_def, V3.sub_def]
  exact ⟨by ring, by ring, by ring⟩

/-- C5 (witness): the theorem applied to concrete one-point clouds and
the identity eigensolver output. -/
theorem AlignViaPCA_rotation_and_translation_witness :
    ([⟨1, 2, 3⟩] : List V3) ≠ [] ∧
    ∃ T, AlignViaPCA (fun _ => ⟨⟨1, 0, 0⟩, ⟨0, 1, 0⟩, ⟨0, 0, 1⟩⟩)
      [⟨1, 2, 3⟩] [⟨4, 5, 6⟩] = .ok T := by
  refine ⟨by simp, ?_⟩
  obtain ⟨T, hT, -⟩ := AlignViaPCA_rotation_and_translation
    (fun _ => ⟨⟨1, 0, 0⟩, ⟨0, 1, 0⟩, ⟨0, 0, 1⟩⟩)
    [⟨1, 2, 3⟩] [⟨4, 5, 6⟩] (by simp) (by simp)
  exact ⟨T, hT⟩

/-- C6: for non-empty inputs `Init_Sigma_Squared` equals
(1 / (N * M * D)) * Σₙ Σₘ ‖xₙ - yₘ‖² with D = 3, the column dimension
of the embedded point matrices. -/
theorem Init_Sigma_Squared_mean_pairwise (X Y : List V3)
    (hX : X ≠ []) (hY : Y ≠ []) :
    Init_Sigma_Squared X Y =
      1 / ((X.length : ℝ) * (Y.length : ℝ) * 3) *
        (X.map (fun xr => (Y.map (fun yr => V3.sqnorm (xr - yr))).sum)).sum := by
  unfold Init_Sigma_Squared
  rw [foldl_outer_sqnorm]
  ring

/-- C6 (witness): the theorem evaluated on the one-point clouds
X = {(1,0,0)}, Y = {(0,0,0)}, where the initial sigma-squared is
1 / (1 * 1 * 3) * 1 = 1/3. -/
theorem Init_Sigma_Squared_mean_pairwise_witness :
    Init_Sigma_Squared [⟨1, 0, 0⟩] [⟨0, 0, 0⟩] = 1 / 3 := by
  have h := Init_Sigma_Squared_mean_pairwise [⟨1, 0, 0⟩] [⟨0, 0, 0⟩]
    (by simp) (by simp)
  rw [h]
  norm_num [V3.sqnorm, V3.sub_def]

/-- C7: for sigma-squared > 0 and w in [0,1), every posterior entry the
E-step returns lies in [0,1] and every column of the posterior matrix
sums to at most 1. -/
theorem E_Step_posterior_bounds {N M : ℕ} (x : Fin N → V3) (y : Fin M → V3)
    (R : Matrix3) (t : V3) (σ2 w scale : ℝ)
    (hσ : 0 < σ2) (hw0 : 0 ≤ w) (hw1 : w < 1) :
    (∀ (m : Fin M) (n : Fin N),
      0 ≤ E_Step x y R t σ2 w scale m n ∧ E_Step x y R t σ2 w scale m n ≤ 1) ∧
    (∀ n : Fin N, ∑ m : Fin M, E_Step x y R t σ2 w scale m n ≤ 1) := by
  have hc : 0 ≤ (2 * Real.pi * σ2) ^ ((3 : ℕ) / 2) * (w / (1 - w)) *
      ((M / N : ℕ) : ℝ) := by
    have hb : (0 : ℝ) ≤ 2 * Real.pi * σ2 := by
      have := Real.pi_pos
      nlinarith
    exact mul_nonneg (mul_nonneg (pow_nonneg hb _)
      (div_nonneg hw0 (by linarith))) (Nat.cast_nonneg _)
  constructor
  · intro m n
    have hterm : 0 < expMat x y R t σ2 m n := Real.exp_pos _
    have hle : expMat x y R t σ2 m n ≤ ∑ mp : Fin M, expMat x y R t σ2 mp n :=
      @Finset.single_le_sum (Fin M) ℝ _ (fun mp => expMat x y R t σ2 mp n)
        Finset.univ (fun i _ => (Real.exp_pos _).le) m (Finset.mem_univ m)
    have hd : 0 < (∑ mp : Fin M, expMat x y R t σ2 mp n) +
        (2 * Real.pi * σ2) ^ ((3 : ℕ) / 2) * (w / (1 - w)) *
          ((M / N : ℕ) : ℝ) := by linarith
    unfold E_Step
    exact ⟨div_nonneg hterm.le hd.le, (div_le_one hd).mpr (by linarith)⟩
  · intro n
    have hsum0 : 0 ≤ ∑ mp : Fin M, expMat x y R t σ2 mp n :=
      Finset.sum_nonneg (fun i _ => (Real.exp_pos _).le)
    unfold E_Step
    rw [← Finset.sum_div]
    rcases eq_or_lt_of_le (by linarith :
        (0 : ℝ) ≤ (∑ mp : Fin M, expMat x y R t σ2 mp n) +
          (2 * Real.pi * σ2) ^ ((3 : ℕ) / 2) * (w / (1 - w)) *
            ((M / N : ℕ) : ℝ)) with h0 | hpos
    · rw [← h0, div_zero]
      norm_num
    · exact (div_le_one hpos).mpr (by linarith)

/-- C7 (witness): the column-sum bound instantiated at N = M = 1, both
points at the origin, R the identity, t = 0, sigma-squared = 1, w = 0. -/
theorem E_Step_posterior_bounds_witness :
    ∑ m : Fin 1, E_Step (fun _ : Fin 1 => (0 : V3)) (fun _ : Fin 1 => (0 : V3))
      1 0 1 0 1 m 0 ≤ 1 :=
  (E_Step_posterior_bounds (fun _ : Fin 1 => (0 : V3))
    (fun _ : Fin 1 => (0 : V3)) 1 0 1 0 1
    (by norm_num) (by norm_num) (by norm_num)).2 0

/-- C8 (counterexample): the method string "cpd" matches neither of the
operator's two regexes, so the operator fails with METHOD_UNKNOWN
instead of dispatching to a CPD aligner. -/
theorem dispatch_cpd_method_unknown :
    AlignPointsDispatch ['c', 'p', 'd'] = .error .METHOD_UNKNOWN := rfl

/-- C8 (amended): the operator recognises exactly the case-insensitive
languages of "^co?m?$" (dispatched to COM) and "^pc?a?$" (dispatched to
PCA); every other method string fails with METHOD_UNKNOWN. -/
theorem AlignPointsDispatch_characterization (s : List Char) :
    (AlignPointsDispatch s = .ok .com ↔ strLower s ∈ comLang) ∧
    (AlignPointsDispatch s = .ok .pca ↔ strLower s ∈ pcaLang) ∧
    (strLower s ∉ comLang → strLower s ∉ pcaLang →
      AlignPointsDispatch s = .error .METHOD_UNKNOWN) := by
  have hdisj : strLower s ∈ comLang → strLower s ∈ pcaLang → False := by
    intro ha hb
    simp only [comLang, List.mem_cons, List.not_mem_nil, or_false] at ha
    rcases ha with h | h | h | h <;> rw [h] at hb <;>
      exact absurd hb (by decide)
  unfold AlignPointsDispatch matches_com matches_pca
  by_cases h1 : strLower s ∈ comLang
  · rw [if_pos h1]
    refine ⟨by simp [h1], ?_, by intro h; exact absurd h1 h⟩
    constructor
    · intro h; exact absurd h (by simp)
    · intro h; exact absurd (hdisj h1 h) id
  · rw [if_neg h1]
    by_cases h2 : strLower s ∈ pcaLang
    · rw [if_pos h2]
      refine ⟨by simp [h1], by simp [h2], ?_⟩
      intro _ h; exact absurd h2 h
    · rw [if_neg h2]
      exact ⟨by simp [h1], by simp [h2], fun _ _ => rfl⟩

/-- C8 (witness): the characterisation applied to the unmatched method
string "foo". -/
theorem AlignPointsDispatch_characterization_witness :
    AlignPointsDispatch ['f', 'o', 'o'] = .error .METHOD_UNKNOWN :=
  (AlignPointsDispatch_characterization ['f', 'o', 'o']).2.2
    (by decide) (by decide)

/-- C9 (counterexample): a transform state whose bottom-right entry is
1 + 10⁻¹³ makes `apply_to` fail even though the homogeneous weight
differs from 1 by no more than 10⁻¹²: the source compares `w != 1.0`
exactly, not against a 10⁻¹² tolerance. -/
theorem apply_to_exact_comparison_counterexample :
    ((⟨fun i j => if i = 3 ∧ j = 3 then 1 + 1 / 10 ^ 13
        else if i = j then 1 else 0⟩ : AffineTransform).apply_to ⟨0, 0, 0⟩ =
      .error .NOT_AFFINE) ∧
    ¬(|(⟨fun i j => if i = 3 ∧ j = 3 then 1 + 1 / 10 ^ 13
        else if i = j then 1 else 0⟩ : AffineTransform).weight ⟨0, 0, 0⟩ - 1| >
        1 / 10 ^ 12) := by
  have hw : (⟨fun i j => if i = 3 ∧ j = 3 then 1 + 1 / 10 ^ 13
      else if i = j then 1 else 0⟩ : AffineTransform).weight ⟨0, 0, 0⟩ =
      1 + 1 / 10 ^ 13 := by
    norm_num [AffineTransform.weight]
  constructor
  · unfold AffineTransform.apply_to
    rw [if_neg (by rw [hw]; norm_num)]
  · rw [hw, not_lt]
    have he : (1 : ℝ) + 1 / 10 ^ 13 - 1 = 1 / 10 ^ 13 := by ring
    rw [he, abs_of_pos (by norm_num)]
    norm_num

/-- C9 (amended): `apply_to` computes p' = T·[p;1] and fails with
NOT_AFFINE if and only if the homogeneous weight differs from 1 at all
(exact comparison, zero tolerance); when the weight equals 1 exactly the
transformed point is returned. -/
theorem apply_to_fails_iff_weight_ne_one (T : AffineTransform) (p : V3) :
    (T.apply_to p = .error .NOT_AFFINE ↔ T.weight p ≠ 1) ∧
    (T.weight p = 1 →
      T.apply_to p =
        .ok ⟨p.x * T.t 0 0 + p.y * T.t 1 0 + p.z * T.t 2 0 + 1 * T.t 3 0,
             p.x * T.t 0 1 + p.y * T.t 1 1 + p.z * T.t 2 1 + 1 * T.t 3 1,
             p.x * T.t 0 2 + p.y * T.t 1 2 + p.z * T.t 2 2 + 1 * T.t 3 2⟩) := by
  unfold AffineTransform.apply_to
  by_cases h : T.weight p = 1
  · rw [if_pos h]
    simp [h]
  · rw [if_neg h]
    simp [h]

/-- C9 (witness): the identity transform applied to (1,2,3) has weight
exactly 1 and returns the point unchanged. -/
theorem apply_to_fails_iff_weight_ne_one_witness :
    AffineTransform.identity.apply_to ⟨1, 2, 3⟩ = .ok ⟨1, 2, 3⟩ := by
  have h := (apply_to_fails_iff_weight_ne_one AffineTransform.identity
    ⟨1, 2, 3⟩).2
    (by norm_num [AffineTransform.weight, AffineTransform.identity])
  rw [h]
  norm_num [AffineTransform.identity]

/-- C10: every transform reachable from the default constructor through
successful `coeff` writes keeps its fourth matrix column at (0,0,0,1);
`coeff` rejects every write with an index outside i ∈ [0,3], j ∈ [0,2]
(in particular every write to column 3); hence the homogeneous weight is
exactly 1 for every input point and `apply_to` never takes its
NOT_AFFINE branch. -/
theorem reachable_transform_affine_invariant (T : AffineTransform)
    (h : Reachable T) :
    (T.t 0 3 = 0 ∧ T.t 1 3 = 0 ∧ T.t 2 3 = 0 ∧ T.t 3 3 = 1) ∧
    (∀ (i j : ℤ) (v : ℝ), ¬((0 ≤ i ∧ i ≤ 3) ∧ (0 ≤ j ∧ j ≤ 2)) →
      T.coeff_set i j v = .error .INVALID_COEFFICIENT) ∧
    (∀ p : V3, T.weight p = 1 ∧ ∃ q, T.apply_to p = .ok q) := by
  have hcol : T.t 0 3 = 0 ∧ T.t 1 3 = 0 ∧ T.t 2 3 = 0 ∧ T.t 3 3 = 1 := by
    induction h with
    | base => norm_num [AffineTransform.identity]
    | step T i j v Tp hr heq ih =>
        unfold AffineTransform.coeff_set at heq
        by_cases hg : (0 ≤ i ∧ i ≤ 3) ∧ (0 ≤ j ∧ j ≤ 2)
        · rw [if_pos hg] at heq
          simp only [Except.ok.injEq] at heq
          subst heq
          simp only [setEntry]
          rw [if_neg (by omega), if_neg (by omega), if_neg (by omega),
              if_neg (by omega)]
          exact ih
        · rw [if_neg hg] at heq
          exact absurd heq (by simp)
  refine ⟨hcol, ?_, ?_⟩
  · intro i j v hg
    unfold AffineTransform.coeff_set
    rw [if_neg hg]
  · intro p
    have hw : T.weight p = 1 := by
      unfold AffineTransform.weight
      rw [hcol.1, hcol.2.1, hcol.2.2.1, hcol.2.2.2]
      ring
    refine ⟨hw, ?_⟩
    unfold AffineTransform.apply_to
    rw [if_pos hw]
    exact ⟨_, rfl⟩

/-- C10 (witness): the invariant applied to the reachable identity
transform at the point (5,6,7). -/
theorem reachable_transform_affine_invariant_witness :
    Reachable AffineTransform.identity ∧
    (AffineTransform.identity.weight ⟨5, 6, 7⟩ = 1 ∧
      ∃ q, AffineTransform.identity.apply_to ⟨5, 6, 7⟩ = .ok q) :=
  ⟨.base, (reachable_transform_affine_invariant AffineTransform.identity
    .base).2.2 ⟨5, 6, 7⟩⟩

end
